import Mathlib

/-
  Verification of the file-system data-access layer of ARK-Rate-Desktop
  (src-tauri/src/implementations/data_access/file_system/file_system_data_access.rs).

  The store keeps two directories under a root: "pairs" and "pair_groups".
  Each file holds one JSON-encoded record.  We embed the layer shallowly:

  * The file system is a pair of directories, each an association list from
    file names to file contents.  File names may fail to be valid text
    (OsString that is not UTF-8), modelled by the constructor
    FileName.invalid.  File contents are modelled at the level the code
    observes them: a file either decodes as a pair record, decodes as a
    pair-group record, or is undecodable.
  * Environmental I/O faults (disk errors while reading or writing an
    existing path) are not modelled; the data-dependent failures the code
    exhibits are: file absent, content not decodable as the requested
    record type, and update of a non-existent group.  Directory creation
    (ensure_dir) either succeeds or panics in the source, so the main
    model assumes the directories exist; ensure_dir itself is modelled
    separately, with the panic as non-return.
  * Rust f64 is modelled by the inductive F64, which distinguishes finite
    values (abstracted by an integer standing for the bit pattern) from
    NaN and the infinities.  The layer only copies values, it never
    computes with them; the one data-dependent behavior of serialization
    is that serde_json emits null for a non-finite f64 — the write itself
    succeeds — and a later decode of that file back into a record with an
    f64 field fails.  write_pair therefore stores a decodable pair record
    exactly when the value is finite (writePairRecord below); pair-group
    records contain no floats and always decode back.
  * write_pair and write_pair_group additionally return the list of file
    writes they perform, in order, so that write-ordering properties can be
    stated.
-/

namespace ARKRate

/-- Error type of the layer: a single kind carrying a message
(crate::Error, used throughout file_system_data_access.rs). -/
structure Error where
  message : String
deriving Repr, DecidableEq

/-- Model of a Rust f64 at the granularity the store observes: either a
finite value, identified abstractly by an integer standing for its bit
pattern, or one of the non-finite values NaN, +inf, -inf, which serde_json
serializes as JSON null. -/
inductive F64 where
  | finite (bits : Int)
  | nan
  | inf
  | negInf
deriving Repr, DecidableEq

/-- Whether serde_json serializes this value as a JSON number (finite)
rather than as null (non-finite). -/
def F64.isFinite : F64 → Bool
  | finite _ => true
  | _ => false

/-- In-memory Pair entity (entities::pair::Pair); fields as constructed in
read_pair and the unit tests: id, base, value (f64), comparison,
created_at, updated_at. -/
structure Pair where
  id : String
  base : String
  value : F64
  comparison : String
  created_at : String
  updated_at : String
deriving Repr, DecidableEq

/-- In-memory PairGroup entity (entities::pair_group::PairGroup); fields as
constructed in read_pair_group: id, is_pinned, pairs (hydrated Pair
records), created_at, updated_at. -/
structure PairGroup where
  id : String
  is_pinned : Bool
  pairs : List Pair
  created_at : String
  updated_at : String
deriving Repr, DecidableEq

/-- On-disk pair record (FileSystemPair): flat projection of Pair.  A
record a real file can decode to always has a finite value (JSON has no
NaN or infinity literals), but nothing below depends on that. -/
structure FileSystemPair where
  id : String
  base : String
  value : F64
  comparison : String
  created_at : String
  updated_at : String
deriving Repr, DecidableEq

/-- On-disk pair-group record (FileSystemPairGroup): like PairGroup but
with pairs replaced by the ordered list of member pair ids. -/
structure FileSystemPairGroup where
  id : String
  is_pinned : Bool
  pairs : List String
  created_at : String
  updated_at : String
deriving Repr, DecidableEq

/-- A directory entry name: either valid text (to_str returns Some) or a
non-UTF8 name (to_str returns None), tagged to keep distinct names
distinguishable. -/
inductive FileName where
  | valid (s : String)
  | invalid (tag : Nat)
deriving Repr, DecidableEq

/-- Model of OsString::to_str on a file name. -/
def FileName.toStr : FileName → Option String
  | valid s => some s
  | invalid _ => none

/-- Contents of one file, at the granularity the code observes through
serde_json: decodes as a pair record, decodes as a pair-group record, or
decodes as neither. -/
inductive FileData where
  | pairData (p : FileSystemPair)
  | groupData (g : FileSystemPairGroup)
  | corrupt (raw : String)
deriving Repr, DecidableEq

/-- A directory: association list from file names to contents. -/
abbrev Dir := List (FileName × FileData)

/-- The pairs and pair_groups directories under the root. -/
structure FSState where
  pairs : Dir
  pair_groups : Dir
deriving Repr, DecidableEq

/-- Look up the file with the given text name (File::open on dir/id):
first entry whose name is the valid text id. -/
def findFile : Dir → String → Option FileData
  | [], _ => none
  | (n, d) :: rest, id =>
    if n = FileName.valid id then some d else findFile rest id

/-- Overwrite-or-create a file (File::create truncates an existing file,
creates a missing one).  Written names are always valid text because the
code joins a Rust String id onto the directory path. -/
def writeFile : Dir → String → FileData → Dir
  | [], id, data => [(FileName.valid id, data)]
  | (n, d) :: rest, id, data =>
    if n = FileName.valid id then (n, data) :: rest
    else (n, d) :: writeFile rest id data

/-- Decoding a file as a pair record (serde_json::from_str into
FileSystemPair): succeeds exactly when the file holds a pair record. -/
def decodePair : FileData → Option FileSystemPair
  | .pairData p => some p
  | _ => none

/-- Decoding a file as a pair-group record. -/
def decodeGroup : FileData → Option FileSystemPairGroup
  | .groupData g => some g
  | _ => none

/-- Message of the io::Error produced by File::open on a missing path, as
rendered by to_string in create_object_from_file. -/
def fileNotFoundMsg : String := "No such file or directory (os error 2)"

/-- Message standing for a serde_json decode error rendered by to_string. -/
def jsonDecodeMsg : String := "JSON decode error"

/-- create_object_from_file: open the file at dir/id, read it, decode it
with the given decoder; absent file and undecodable content each produce a
recoverable Error. -/
def create_object_from_file {T : Type} (dir : Dir) (id : String)
    (decode : FileData → Option T) : Except Error T :=
  match findFile dir id with
  | none => .error ⟨fileNotFoundMsg⟩
  | some fd =>
    match decode fd with
    | none => .error ⟨jsonDecodeMsg⟩
    | some t => .ok t

/-- Projection of an in-memory Pair onto its on-disk record
(the struct literal built in write_pair). -/
def toFileSystemPair (p : Pair) : FileSystemPair :=
  ⟨p.id, p.base, p.value, p.comparison, p.created_at, p.updated_at⟩

/-- Hydration of an on-disk pair record into the in-memory Pair
(the struct literal built in read_pair). -/
def fromFileSystemPair (fp : FileSystemPair) : Pair :=
  ⟨fp.id, fp.base, fp.value, fp.comparison, fp.created_at, fp.updated_at⟩

/-- Projection of an in-memory PairGroup onto its on-disk record: pairs
become the ordered list of member pair ids (write_pair_group). -/
def toFileSystemPairGroup (g : PairGroup) : FileSystemPairGroup :=
  ⟨g.id, g.is_pinned, g.pairs.map (fun p => p.id), g.created_at, g.updated_at⟩

/-- read_pair: read and decode pairs/id, then hydrate. -/
def read_pair (s : FSState) (id : String) : Except Error Pair :=
  match create_object_from_file s.pairs id decodePair with
  | .error e => .error e
  | .ok fp => .ok (fromFileSystemPair fp)

/-- The hydration loop of read_pair_group: read each referenced pair id in
order, failing on the first pair that cannot be read. -/
def readPairsLoop (s : FSState) : List String → Except Error (List Pair)
  | [] => .ok []
  | pid :: rest =>
    match read_pair s pid with
    | .error e => .error e
    | .ok p =>
      match readPairsLoop s rest with
      | .error e => .error e
      | .ok ps => .ok (p :: ps)

/-- read_pair_group: read and decode pair_groups/id, then hydrate every
referenced pair in the stored order. -/
def read_pair_group (s : FSState) (id : String) : Except Error PairGroup :=
  match create_object_from_file s.pair_groups id decodeGroup with
  | .error e => .error e
  | .ok fsg =>
    match readPairsLoop s fsg.pairs with
    | .error e => .error e
    | .ok ps => .ok ⟨fsg.id, fsg.is_pinned, ps, fsg.created_at, fsg.updated_at⟩

/-- The loop of fetch_pair_groups over the directory entries: entries whose
name is not valid text are skipped; each text name is treated as a group id
and hydrated, failing on the first group that cannot be hydrated. -/
def fetchLoop (s : FSState) : List (FileName × FileData) → Except Error (List PairGroup)
  | [] => .ok []
  | (n, _) :: rest =>
    match n.toStr with
    | none => fetchLoop s rest
    | some id =>
      match read_pair_group s id with
      | .error e => .error e
      | .ok g =>
        match fetchLoop s rest with
        | .error e => .error e
        | .ok gs => .ok (g :: gs)

/-- fetch_pair_groups: enumerate the pair_groups directory and hydrate each
text-named entry; the state is returned unchanged (the method performs no
file write). -/
def fetch_pair_groups (s : FSState) : Except Error (List PairGroup) × FSState :=
  (fetchLoop s s.pair_groups, s)

/-- One observable file write, for stating write-ordering properties. -/
inductive WriteEvent where
  | wPair (id : String)
  | wGroup (id : String)
deriving Repr, DecidableEq

/-- Model of write_object_file on a pair record: serde_json::to_string
succeeds for every value, but it emits null for a non-finite f64, so the
written file decodes back as a pair record exactly when the value is
finite; otherwise the file's content fails the f64 field decode on a
later read. -/
def writePairRecord (p : Pair) : FileData :=
  if p.value.isFinite then FileData.pairData (toFileSystemPair p)
  else FileData.corrupt "pair record whose value field is null"

/-- write_pair: full overwrite of pairs/p.id with the serialized record. -/
def write_pair (s : FSState) (p : Pair) : FSState × List WriteEvent :=
  ({ s with pairs := writeFile s.pairs p.id (writePairRecord p) },
   [WriteEvent.wPair p.id])

/-- The loop of write_pair_group over group.pairs, in list order. -/
def writePairsLoop (s : FSState) : List Pair → FSState × List WriteEvent
  | [] => (s, [])
  | p :: rest =>
    ((writePairsLoop (write_pair s p).1 rest).1,
     (write_pair s p).2 ++ (writePairsLoop (write_pair s p).1 rest).2)

/-- write_pair_group: write every member pair to its own file, then write
the group record (full overwrite) holding the ordered member id list. -/
def write_pair_group (s : FSState) (g : PairGroup) : FSState × List WriteEvent :=
  ({ (writePairsLoop s g.pairs).1 with
      pair_groups := writeFile (writePairsLoop s g.pairs).1.pair_groups g.id
        (FileData.groupData (toFileSystemPairGroup g)) },
   (writePairsLoop s g.pairs).2 ++ [WriteEvent.wGroup g.id])

/-- update_pair_group: refuse (with the exact source message) when no group
file with this id exists, before any write; otherwise delegate to
write_pair_group. -/
def update_pair_group (s : FSState) (g : PairGroup) :
    Except Error Unit × FSState × List WriteEvent :=
  match findFile s.pair_groups g.id with
  | none => (.error ⟨"Pair group to update does not exist!"⟩, s, [])
  | some _ =>
    (.ok (), (write_pair_group s g).1, (write_pair_group s g).2)

/-- A path, for the ensure_dir model: a list of components from the root. -/
structure DirPath where
  components : List String
deriving Repr, DecidableEq

/-- Path join. -/
def DirPath.join (p : DirPath) (name : String) : DirPath :=
  ⟨p.components ++ [name]⟩

/-- ensure_dir, with create_dir_all's success decided by an environment
predicate.  A creation failure makes the source panic via expect (no value
is returned), modelled as the none branch; when a value is returned it is
always the Ok of root/name. -/
def ensure_dir (env : DirPath → Bool) (root : DirPath) (name : String) :
    Option (Except Error DirPath) :=
  if env (root.join name) then some (Except.ok (root.join name)) else none

/-- Whether a file with the given name exists in a directory. -/
def hasFile (d : Dir) (n : FileName) : Prop := ∃ fd, (n, fd) ∈ d

/-- The text-decodable entry names of a directory, in listing order:
exactly the entries fetch_pair_groups attempts to hydrate. -/
def validIds (d : Dir) : List String := d.filterMap (fun e => e.1.toStr)

/-- Effectful map over a list in the Except monad, stopping at the first
error: the common shape of the fetch and hydration loops. -/
def mapExcept {α β : Type} (f : α → Except Error β) : List α → Except Error (List β)
  | [] => .ok []
  | a :: rest =>
    match f a with
    | .error e => .error e
    | .ok b =>
      match mapExcept f rest with
      | .error e => .error e
      | .ok bs => .ok (b :: bs)

/-- A pairs list carries consistent content per id: any two members with
the same id are equal records.  Since pair files are keyed by pair id,
this is exactly the condition under which dehydrating and re-hydrating a
group can restore it. -/
def consistentPairs (l : List Pair) : Prop :=
  ∀ p ∈ l, ∀ q ∈ l, p.id = q.id → p = q

/-- All pair values in the list are finite: exactly the condition under
which serde_json round-trips every member's f64 field (a non-finite value
is written as null and fails decoding on a later read). -/
def finiteValues (l : List Pair) : Prop :=
  ∀ p ∈ l, p.value.isFinite = true

/-- Sample pair used to instantiate universally quantified theorems. -/
def samplePair1 : Pair := ⟨"p1", "USD", F64.finite 1, "BTC", "c1", "u1"⟩

/-- Sample pair sharing samplePair1's id but with a different base. -/
def samplePair1Dup : Pair := ⟨"p1", "EUR", F64.finite 1, "BTC", "c1", "u1"⟩

/-- Sample pair sharing samplePair1's id whose value is NaN. -/
def samplePairNaN : Pair := ⟨"p1", "USD", F64.nan, "BTC", "c1", "u1"⟩

/-- Sample pair with a second id. -/
def samplePair2 : Pair := ⟨"p2", "USD", F64.finite 2, "ETH", "c2", "u2"⟩

/-- Empty file-system state. -/
def emptyState : FSState := ⟨[], []⟩

/-- Sample state with one pair file p9 and one group file g9 referencing
it, used to instantiate the no-deletion theorem. -/
def orphanState : FSState :=
  ⟨[(FileName.valid "p9", FileData.pairData (toFileSystemPair samplePair2))],
   [(FileName.valid "g9", FileData.groupData ⟨"g9", false, ["p9"], "c0", "u0"⟩)]⟩

/-- Looking up the name just written finds the written content. -/
theorem findFile_writeFile_self (d : Dir) (id : String) (fd : FileData) :
    findFile (writeFile d id fd) id = some fd := by
  induction d with
  | nil => simp [writeFile, findFile]
  | cons hd tl ih =>
    obtain ⟨n, c⟩ := hd
    by_cases h : n = FileName.valid id
    · simp [writeFile, findFile, h]
    · simp [writeFile, findFile, h, ih]

/-- Writing one name leaves lookups of any other name unchanged. -/
theorem findFile_writeFile_ne (d : Dir) (id id' : String) (fd : FileData)
    (h : id ≠ id') :
    findFile (writeFile d id fd) id' = findFile d id' := by
  induction d with
  | nil => simp [writeFile, findFile, h]
  | cons hd tl ih =>
    obtain ⟨n, c⟩ := hd
    by_cases h1 : n = FileName.valid id
    · subst h1
      simp only [writeFile, if_pos rfl, findFile]
      have h2 : ¬(FileName.valid id = FileName.valid id') := by
        simp [h]
      simp [h2]
    · by_cases h2 : n = FileName.valid id'
      · simp [writeFile, findFile, h1, h2, Ne.symm h]
      · simp [writeFile, findFile, h1, h2, ih]

/-- Writing never removes an existing file. -/
theorem hasFile_writeFile (d : Dir) (id : String) (fd : FileData) (n : FileName)
    (h : hasFile d n) : hasFile (writeFile d id fd) n := by
  induction d with
  | nil => rcases h with ⟨c, hc⟩; cases hc
  | cons hd tl ih =>
    obtain ⟨n0, c0⟩ := hd
    rcases h with ⟨c, hc⟩
    rcases List.mem_cons.mp hc with heq | hmem
    · have hn : n = n0 := congrArg Prod.fst heq
      subst hn
      by_cases h0 : n = FileName.valid id
      · exact ⟨fd, by simp [writeFile, h0]⟩
      · exact ⟨c0, by simp [writeFile, h0]⟩
    · by_cases h0 : n0 = FileName.valid id
      · exact ⟨c, by simp only [writeFile, if_pos h0]; exact List.mem_cons_of_mem _ hmem⟩
      · obtain ⟨c', hc'⟩ := ih ⟨c, hmem⟩
        exact ⟨c', by simp only [writeFile, if_neg h0]; exact List.mem_cons_of_mem _ hc'⟩

/-- The name just written is among the text-decodable names. -/
theorem validIds_writeFile_self (d : Dir) (id : String) (fd : FileData) :
    id ∈ validIds (writeFile d id fd) := by
  induction d with
  | nil => simp [writeFile, validIds, FileName.toStr]
  | cons hd tl ih =>
    obtain ⟨n, c⟩ := hd
    by_cases h : n = FileName.valid id
    · simp [writeFile, validIds, h, FileName.toStr]
    · simp only [writeFile, if_neg h, validIds, List.filterMap_cons]
      cases hn : FileName.toStr n with
      | none => exact ih
      | some t => exact List.mem_cons_of_mem _ ih

/-- A name findable by lookup is among the text-decodable names. -/
theorem validIds_of_findFile (d : Dir) (id : String) (fd : FileData)
    (h : findFile d id = some fd) : id ∈ validIds d := by
  induction d with
  | nil => simp [findFile] at h
  | cons hd tl ih =>
    obtain ⟨n, c⟩ := hd
    by_cases h1 : n = FileName.valid id
    · subst h1; simp [validIds, FileName.toStr]
    · simp only [findFile, if_neg h1] at h
      simp only [validIds, List.filterMap_cons]
      cases hn : FileName.toStr n with
      | none => exact ih h
      | some t => exact List.mem_cons_of_mem _ (ih h)

/-- The pair-writing loop never touches the pair_groups directory. -/
theorem writePairsLoop_pair_groups (l : List Pair) (s : FSState) :
    (writePairsLoop s l).1.pair_groups = s.pair_groups := by
  induction l generalizing s with
  | nil => rfl
  | cons p rest ih => simp [writePairsLoop, ih, write_pair]

/-- The pair-writing loop emits exactly one pair-write event per member,
in list order. -/
theorem writePairsLoop_trace (l : List Pair) (s : FSState) :
    (writePairsLoop s l).2 = l.map (fun p => WriteEvent.wPair p.id) := by
  induction l generalizing s with
  | nil => rfl
  | cons p rest ih => simp [writePairsLoop, write_pair, ih]

/-- The pair-writing loop leaves lookups of ids outside the list unchanged. -/
theorem writePairsLoop_findFile_of_ne (l : List Pair) (s : FSState) (i : String)
    (h : ∀ p ∈ l, p.id ≠ i) :
    findFile (writePairsLoop s l).1.pairs i = findFile s.pairs i := by
  induction l generalizing s with
  | nil => rfl
  | cons q rest ih =>
    simp only [writePairsLoop]
    rw [ih _ (fun p hp => h p (List.mem_cons_of_mem _ hp))]
    exact findFile_writeFile_ne _ _ _ _ (h q (List.mem_cons_self _ _))

/-- After the pair-writing loop, a member pair whose id appears with
consistent content is on disk as its own serialized record. -/
theorem writePairsLoop_findFile_mem (l : List Pair) (s : FSState) (p : Pair)
    (hp : p ∈ l) (hcons : ∀ q ∈ l, q.id = p.id → q = p) :
    findFile (writePairsLoop s l).1.pairs p.id = some (writePairRecord p) := by
  induction l generalizing s with
  | nil => cases hp
  | cons q rest ih =>
    by_cases hqr : p ∈ rest
    · simp only [writePairsLoop]
      apply ih
      · exact hqr
      · intro r hr hid
        exact hcons r (List.mem_cons_of_mem _ hr) hid
    · have hpq : p = q := by
        rcases List.mem_cons.mp hp with h | h
        · exact h
        · exact absurd h hqr
      subst hpq
      have hrest : ∀ r ∈ rest, r.id ≠ p.id := by
        intro r hr hid
        exact hqr (hcons r (List.mem_cons_of_mem _ hr) hid ▸ hr)
      simp only [writePairsLoop]
      rw [writePairsLoop_findFile_of_ne _ _ _ hrest]
      exact findFile_writeFile_self _ _ _

/-- The pair-writing loop never removes a pair file. -/
theorem hasFile_writePairsLoop (l : List Pair) (s : FSState) (n : FileName)
    (h : hasFile s.pairs n) : hasFile (writePairsLoop s l).1.pairs n := by
  induction l generalizing s with
  | nil => exact h
  | cons p rest ih =>
    simp only [writePairsLoop]
    exact ih _ (hasFile_writeFile _ _ _ _ h)

/-- A successful mapExcept maps each list member, positionwise in order. -/
theorem mapExcept_ok_forall2 {α β : Type} (f : α → Except Error β) (l : List α)
    (r : List β) (h : mapExcept f l = .ok r) :
    List.Forall₂ (fun a b => f a = Except.ok b) l r := by
  induction l generalizing r with
  | nil =>
    simp only [mapExcept] at h
    cases h
    exact List.Forall₂.nil
  | cons a rest ih =>
    simp only [mapExcept] at h
    cases hfa : f a with
    | error e => rw [hfa] at h; cases h
    | ok b =>
      rw [hfa] at h
      cases hrest : mapExcept f rest with
      | error e => rw [hrest] at h; cases h
      | ok bs =>
        rw [hrest] at h
        cases h
        exact List.Forall₂.cons hfa (ih _ hrest)

/-- Each member of a successfully mapped list has its image in the result. -/
theorem mapExcept_ok_mem {α β : Type} (f : α → Except Error β) (l : List α)
    (r : List β) (a : α) (h : mapExcept f l = .ok r) (ha : a ∈ l) :
    ∃ b ∈ r, f a = Except.ok b := by
  induction l generalizing r with
  | nil => cases ha
  | cons x rest ih =>
    simp only [mapExcept] at h
    cases hfx : f x with
    | error e => rw [hfx] at h; cases h
    | ok b =>
      rw [hfx] at h
      cases hrest : mapExcept f rest with
      | error e => rw [hrest] at h; cases h
      | ok bs =>
        rw [hrest] at h
        cases h
        rcases List.mem_cons.mp ha with rfl | hmem
        · exact ⟨b, List.mem_cons_self _ _, hfx⟩
        · obtain ⟨b', hb', hfb'⟩ := ih _ hrest hmem
          exact ⟨b', List.mem_cons_of_mem _ hb', hfb'⟩

/-- If any member fails, mapExcept fails. -/
theorem mapExcept_error_of_mem {α β : Type} (f : α → Except Error β) (l : List α)
    (a : α) (e : Error) (ha : a ∈ l) (hfa : f a = .error e) :
    ∃ e', mapExcept f l = .error e' := by
  induction l with
  | nil => cases ha
  | cons x rest ih =>
    rcases List.mem_cons.mp ha with rfl | hmem
    · exact ⟨e, by simp [mapExcept, hfa]⟩
    · cases hfx : f x with
      | error e2 => exact ⟨e2, by simp [mapExcept, hfx]⟩
      | ok b =>
        obtain ⟨e', he'⟩ := ih hmem
        exact ⟨e', by simp [mapExcept, hfx, he']⟩

/-- The hydration loop is mapExcept of read_pair. -/
theorem readPairsLoop_eq_mapExcept (s : FSState) (ids : List String) :
    readPairsLoop s ids = mapExcept (read_pair s) ids := by
  induction ids with
  | nil => rfl
  | cons pid rest ih =>
    simp only [readPairsLoop, mapExcept, ih]
    cases hx : read_pair s pid with
    | error e => rfl
    | ok p =>
      cases hy : mapExcept (read_pair s) rest with
      | error e => rfl
      | ok ps => rfl

/-- Hydrating the dehydrated id list of a pair list recovers the list,
whenever each member pair reads back as itself. -/
theorem readPairsLoop_map_id (s : FSState) (l : List Pair)
    (h : ∀ p ∈ l, read_pair s p.id = .ok p) :
    readPairsLoop s (l.map (fun p => p.id)) = .ok l := by
  induction l with
  | nil => rfl
  | cons p rest ih =>
    simp only [List.map_cons, readPairsLoop]
    rw [h p (List.mem_cons_self _ _), ih (fun q hq => h q (List.mem_cons_of_mem _ hq))]

/-- The fetch loop is mapExcept of read_pair_group over the text-decodable
entry names, in listing order. -/
theorem fetchLoop_eq_mapExcept (s : FSState) (entries : List (FileName × FileData)) :
    fetchLoop s entries = mapExcept (read_pair_group s) (validIds entries) := by
  induction entries with
  | nil => rfl
  | cons e rest ih =>
    obtain ⟨n, fd⟩ := e
    cases n with
    | valid id =>
      have hv : validIds ((FileName.valid id, fd) :: rest) = id :: validIds rest := by
        simp [validIds, FileName.toStr]
      rw [hv]
      simp only [fetchLoop, FileName.toStr, mapExcept]
      cases hx : read_pair_group s id with
      | error e2 => rfl
      | ok g =>
        rw [ih]
        cases hy : mapExcept (read_pair_group s) (validIds rest) with
        | error e2 => rfl
        | ok gs => rfl
    | invalid t =>
      have hv : validIds ((FileName.invalid t, fd) :: rest) = validIds rest := by
        simp [validIds, FileName.toStr]
      rw [hv]
      simp only [fetchLoop, FileName.toStr]
      exact ih

/-- Dehydrating then re-hydrating a pair record is the identity. -/
theorem fromFileSystemPair_toFileSystemPair (p : Pair) :
    fromFileSystemPair (toFileSystemPair p) = p := rfl

/-- Round trip at the single-group level: after write_pair_group, reading
the group id back hydrates exactly the written group, provided the written
pairs list is id-consistent and all its values are finite (so every pair
record decodes back). -/
theorem read_pair_group_write_roundtrip (s : FSState) (g : PairGroup)
    (hcons : consistentPairs g.pairs) (hfin : finiteValues g.pairs) :
    read_pair_group (write_pair_group s g).1 g.id = Except.ok g := by
  have hgrp : findFile (write_pair_group s g).1.pair_groups g.id
      = some (FileData.groupData (toFileSystemPairGroup g)) := by
    simp only [write_pair_group]
    exact findFile_writeFile_self _ _ _
  have hpairs_dir : (write_pair_group s g).1.pairs = (writePairsLoop s g.pairs).1.pairs := rfl
  have hread : ∀ p ∈ g.pairs, read_pair (write_pair_group s g).1 p.id = .ok p := by
    intro p hp
    have hfind : findFile (write_pair_group s g).1.pairs p.id
        = some (writePairRecord p) := by
      rw [hpairs_dir]
      exact writePairsLoop_findFile_mem _ _ _ hp
        (fun q hq hid => hcons q hq p hp hid)
    have hrec : writePairRecord p = FileData.pairData (toFileSystemPair p) := by
      simp [writePairRecord, hfin p hp]
    rw [hrec] at hfind
    simp [read_pair, create_object_from_file, hfind, decodePair,
      fromFileSystemPair_toFileSystemPair]
  have hloop : readPairsLoop (write_pair_group s g).1 (g.pairs.map (fun p => p.id))
      = .ok g.pairs := readPairsLoop_map_id _ _ hread
  simp only [read_pair_group, create_object_from_file, hgrp, decodeGroup,
    toFileSystemPairGroup]
  rw [hloop]

/-- C1 (amended): for every pair group whose pairs list has consistent
content per id and only finite values, writing it and then fetching all
pair groups returns the written group field-for-field in the collection
whenever fetch succeeds; and from a state whose pair_groups directory is
empty, fetch does succeed and contains it. -/
theorem c1_roundtrip_of_consistent (s : FSState) (g : PairGroup)
    (hcons : consistentPairs g.pairs) (hfin : finiteValues g.pairs) :
    (∀ r, (fetch_pair_groups (write_pair_group s g).1).1 = Except.ok r → g ∈ r) ∧
    (s.pair_groups = [] →
      ∃ r, (fetch_pair_groups (write_pair_group s g).1).1 = Except.ok r ∧ g ∈ r) := by
  have hrt := read_pair_group_write_roundtrip s g hcons hfin
  constructor
  · intro r hr
    have hmem : g.id ∈ validIds (write_pair_group s g).1.pair_groups := by
      simp only [write_pair_group]
      exact validIds_writeFile_self _ _ _
    simp only [fetch_pair_groups] at hr
    rw [fetchLoop_eq_mapExcept] at hr
    obtain ⟨b, hb, hfb⟩ := mapExcept_ok_mem _ _ _ _ hr hmem
    rw [hrt] at hfb
    cases hfb
    exact hb
  · intro hempty
    have hdir : (write_pair_group s g).1.pair_groups
        = [(FileName.valid g.id, FileData.groupData (toFileSystemPairGroup g))] := by
      simp only [write_pair_group]
      rw [writePairsLoop_pair_groups, hempty]
      rfl
    refine ⟨[g], ?_, List.mem_singleton.mpr rfl⟩
    simp only [fetch_pair_groups]
    rw [hdir]
    simp [fetchLoop, FileName.toStr, hrt]

/-- C1 counterexample: the claim fails as stated for a group whose pairs
list has two entries with the same id but different content.  Writing the
group from an empty store and fetching yields a group carrying the
last-written pair at both positions, so the written group is not in the
fetched collection. -/
theorem c1_roundtrip_counterexample :
    (fetch_pair_groups
        (write_pair_group emptyState
          ⟨"g", false, [samplePair1, samplePair1Dup], "c", "u"⟩).1).1
      = Except.ok [⟨"g", false, [samplePair1Dup, samplePair1Dup], "c", "u"⟩] ∧
    (⟨"g", false, [samplePair1, samplePair1Dup], "c", "u"⟩ : PairGroup)
      ∉ [(⟨"g", false, [samplePair1Dup, samplePair1Dup], "c", "u"⟩ : PairGroup)] := by
  refine ⟨rfl, ?_⟩
  simp [samplePair1, samplePair1Dup, PairGroup.mk.injEq, Pair.mk.injEq]

/-- C1 witness: a concrete one-pair group written to the empty store is
fetched back field-for-field. -/
theorem c1_roundtrip_witness :
    ∃ r, (fetch_pair_groups
        (write_pair_group emptyState ⟨"g1", true, [samplePair1], "cg", "ug"⟩).1).1
      = Except.ok r ∧ (⟨"g1", true, [samplePair1], "cg", "ug"⟩ : PairGroup) ∈ r :=
  (c1_roundtrip_of_consistent emptyState ⟨"g1", true, [samplePair1], "cg", "ug"⟩
    (by unfold consistentPairs; decide) (by unfold finiteValues; decide)).2 rfl

/-- C2: update_pair_group on an id with no existing pair-group file returns
the exact "does not exist" error, leaves the file-system state unchanged,
and performs no file write at all. -/
theorem c2_update_missing_is_error_and_no_write (s : FSState) (g : PairGroup)
    (hnone : findFile s.pair_groups g.id = none) :
    update_pair_group s g
      = (Except.error ⟨"Pair group to update does not exist!"⟩, s, []) := by
  simp [update_pair_group, hnone]

/-- C2 witness: updating a group in the empty store fails and writes
nothing. -/
theorem c2_update_missing_witness :
    update_pair_group emptyState ⟨"g1", true, [samplePair1], "cg", "ug"⟩
      = (Except.error ⟨"Pair group to update does not exist!"⟩, emptyState, []) :=
  c2_update_missing_is_error_and_no_write emptyState
    ⟨"g1", true, [samplePair1], "cg", "ug"⟩ rfl

/-- C3: if some pair-group file references a pair id with no corresponding
file in the pairs directory, fetch_pair_groups returns an error rather than
a collection with the missing pair omitted. -/
theorem c3_fetch_fails_on_dangling_pair (s : FSState) (gid : String)
    (fsg : FileSystemPairGroup) (pid : String)
    (hg : findFile s.pair_groups gid = some (FileData.groupData fsg))
    (hpid : pid ∈ fsg.pairs)
    (hmissing : findFile s.pairs pid = none) :
    ∃ e, (fetch_pair_groups s).1 = Except.error e := by
  have hrp : read_pair s pid = Except.error ⟨fileNotFoundMsg⟩ := by
    simp [read_pair, create_object_from_file, hmissing]
  obtain ⟨e1, he1⟩ := mapExcept_error_of_mem (read_pair s) fsg.pairs pid _ hpid hrp
  have hloop : readPairsLoop s fsg.pairs = Except.error e1 := by
    rw [readPairsLoop_eq_mapExcept]
    exact he1
  have hrpg : read_pair_group s gid = Except.error e1 := by
    simp [read_pair_group, create_object_from_file, hg, decodeGroup, hloop]
  obtain ⟨e2, he2⟩ := mapExcept_error_of_mem (read_pair_group s) _ gid e1
    (validIds_of_findFile _ _ _ hg) hrpg
  refine ⟨e2, ?_⟩
  simp only [fetch_pair_groups]
  rw [fetchLoop_eq_mapExcept]
  exact he2

/-- C3 witness: a store holding one group file that references the absent
pair id p1 makes fetch fail. -/
theorem c3_fetch_fails_witness :
    ∃ e, (fetch_pair_groups
        ⟨[], [(FileName.valid "g1",
               FileData.groupData ⟨"g1", true, ["p1"], "cg", "ug"⟩)]⟩).1
      = Except.error e :=
  c3_fetch_fails_on_dangling_pair
    ⟨[], [(FileName.valid "g1", FileData.groupData ⟨"g1", true, ["p1"], "cg", "ug"⟩)]⟩
    "g1" ⟨"g1", true, ["p1"], "cg", "ug"⟩ "p1" rfl (List.mem_singleton.mpr rfl) rfl

/-- C4 (amended): after a successful update_pair_group with a new value
whose pairs list has consistent content per id and only finite values,
reading that group back yields exactly the updated state, with no field or
member of the previous version surviving. -/
theorem c4_update_replaces (s : FSState) (g : PairGroup)
    (hcons : consistentPairs g.pairs) (hfin : finiteValues g.pairs)
    (hok : (update_pair_group s g).1 = Except.ok ()) :
    read_pair_group (update_pair_group s g).2.1 g.id = Except.ok g := by
  cases hf : findFile s.pair_groups g.id with
  | none => simp [update_pair_group, hf] at hok
  | some fd =>
    have hst : (update_pair_group s g).2.1 = (write_pair_group s g).1 := by
      simp [update_pair_group, hf]
    rw [hst]
    exact read_pair_group_write_roundtrip s g hcons hfin

/-- C4 counterexample: the claim fails as stated when the updated value
itself carries two same-id pairs with different content: the update
succeeds, but reading the group back does not yield the updated value
field-for-field. -/
theorem c4_update_counterexample :
    (update_pair_group
        ⟨[], [(FileName.valid "g2", FileData.groupData ⟨"g2", false, [], "c0", "u0"⟩)]⟩
        ⟨"g2", true, [samplePair1, samplePair1Dup], "c", "u"⟩).1 = Except.ok () ∧
    read_pair_group
        (update_pair_group
          ⟨[], [(FileName.valid "g2", FileData.groupData ⟨"g2", false, [], "c0", "u0"⟩)]⟩
          ⟨"g2", true, [samplePair1, samplePair1Dup], "c", "u"⟩).2.1 "g2"
      = Except.ok ⟨"g2", true, [samplePair1Dup, samplePair1Dup], "c", "u"⟩ ∧
    (⟨"g2", true, [samplePair1Dup, samplePair1Dup], "c", "u"⟩ : PairGroup)
      ≠ ⟨"g2", true, [samplePair1, samplePair1Dup], "c", "u"⟩ := by
  refine ⟨rfl, rfl, ?_⟩
  simp [samplePair1, samplePair1Dup, PairGroup.mk.injEq, Pair.mk.injEq]

/-- C4 witness: updating an existing group g2 to a concrete two-pair value
with distinct pair ids and reading it back yields exactly that value. -/
theorem c4_update_replaces_witness :
    read_pair_group
        (update_pair_group
          ⟨[], [(FileName.valid "g2", FileData.groupData ⟨"g2", false, [], "c0", "u0"⟩)]⟩
          ⟨"g2", true, [samplePair1, samplePair2], "c", "u"⟩).2.1 "g2"
      = Except.ok ⟨"g2", true, [samplePair1, samplePair2], "c", "u"⟩ :=
  c4_update_replaces
    ⟨[], [(FileName.valid "g2", FileData.groupData ⟨"g2", false, [], "c0", "u0"⟩)]⟩
    ⟨"g2", true, [samplePair1, samplePair2], "c", "u"⟩
    (by unfold consistentPairs; decide) (by unfold finiteValues; decide) rfl

/-- C5: in every successful update_pair_group run, the group record is
written only after every member pair: wherever the emitted write sequence
decomposes around a group-record write, the write of each pair in
group.pairs lies strictly before it, in the preceding prefix. -/
theorem c5_pairs_written_before_group (s : FSState) (g : PairGroup)
    (hok : (update_pair_group s g).1 = Except.ok ())
    (t₁ t₂ : List WriteEvent)
    (hdec : (update_pair_group s g).2.2
      = t₁ ++ WriteEvent.wGroup g.id :: t₂) :
    ∀ p ∈ g.pairs, WriteEvent.wPair p.id ∈ t₁ := by
  cases hf : findFile s.pair_groups g.id with
  | none => simp [update_pair_group, hf] at hok
  | some fd =>
    have htr : (update_pair_group s g).2.2
        = g.pairs.map (fun p => WriteEvent.wPair p.id)
            ++ [WriteEvent.wGroup g.id] := by
      simp [update_pair_group, hf, write_pair_group, writePairsLoop_trace]
    rw [htr] at hdec
    rcases t₂.eq_nil_or_concat' with h2 | ⟨t₂', b, h2⟩
    · subst h2
      have hm : g.pairs.map (fun p => WriteEvent.wPair p.id) = t₁ :=
        List.append_cancel_right hdec
      intro p hp
      rw [← hm]
      exact List.mem_map_of_mem _ hp
    · subst h2
      have hre : t₁ ++ WriteEvent.wGroup g.id :: (t₂' ++ [b])
          = (t₁ ++ WriteEvent.wGroup g.id :: t₂') ++ [b] := by simp
      rw [hre] at hdec
      obtain ⟨hml, _⟩ := List.append_inj' hdec rfl
      have hxm : WriteEvent.wGroup g.id
          ∈ g.pairs.map (fun p => WriteEvent.wPair p.id) := by
        rw [hml]
        simp
      simp at hxm

/-- C5 witness: for a one-pair group updated over an existing g1 record,
the trace decomposes as the pair write followed by the group write, and the
pair write is in the prefix. -/
theorem c5_pairs_written_before_group_witness :
    WriteEvent.wPair "p1" ∈ ([WriteEvent.wPair "p1"] : List WriteEvent) :=
  c5_pairs_written_before_group
    ⟨[], [(FileName.valid "g1", FileData.groupData ⟨"g1", false, [], "c0", "u0"⟩)]⟩
    ⟨"g1", true, [samplePair1], "c", "u"⟩ rfl
    [WriteEvent.wPair "p1"] [] rfl samplePair1 (List.mem_singleton.mpr rfl)

/-- C6: when a group record decodes and read_pair_group succeeds, the
hydrated pairs field corresponds one-to-one, in order, with the id list
stored in the on-disk record: the i-th hydrated pair is exactly the record
read from the i-th stored id. -/
theorem c6_hydration_preserves_order (s : FSState) (gid : String)
    (fsg : FileSystemPairGroup) (g : PairGroup)
    (hg : findFile s.pair_groups gid = some (FileData.groupData fsg))
    (hok : read_pair_group s gid = Except.ok g) :
    List.Forall₂ (fun pid p => read_pair s pid = Except.ok p) fsg.pairs g.pairs := by
  simp only [read_pair_group, create_object_from_file, hg, decodeGroup] at hok
  cases hloop : readPairsLoop s fsg.pairs with
  | error e => rw [hloop] at hok; cases hok
  | ok ps =>
    rw [hloop] at hok
    cases hok
    rw [readPairsLoop_eq_mapExcept] at hloop
    exact mapExcept_ok_forall2 _ _ _ hloop

/-- C6 witness: a store with pair file p1 and group file g1 referencing
p1; hydration reads back the pair list in the stored order. -/
theorem c6_hydration_preserves_order_witness :
    List.Forall₂
      (fun pid p =>
        read_pair
          ⟨[(FileName.valid "p1", FileData.pairData (toFileSystemPair samplePair1))],
           [(FileName.valid "g1", FileData.groupData ⟨"g1", true, ["p1"], "cg", "ug"⟩)]⟩
          pid = Except.ok p)
      ["p1"] [samplePair1] :=
  c6_hydration_preserves_order
    ⟨[(FileName.valid "p1", FileData.pairData (toFileSystemPair samplePair1))],
     [(FileName.valid "g1", FileData.groupData ⟨"g1", true, ["p1"], "cg", "ug"⟩)]⟩
    "g1" ⟨"g1", true, ["p1"], "cg", "ug"⟩
    ⟨"g1", true, [samplePair1], "cg", "ug"⟩ rfl rfl

/-- C7: fetch_pair_groups hydrates exactly the entries whose filename
decodes to valid text, as ids in listing order, and silently skips
non-text names; an empty directory yields the empty collection as a
success. -/
theorem c7_fetch_valid_text_entries (s : FSState) :
    (fetch_pair_groups s).1
        = mapExcept (read_pair_group s) (validIds s.pair_groups) ∧
    (s.pair_groups = [] → (fetch_pair_groups s).1 = Except.ok []) := by
  refine ⟨fetchLoop_eq_mapExcept s s.pair_groups, ?_⟩
  intro h
  simp only [fetch_pair_groups]
  rw [h]
  rfl

/-- C7 witness: an empty pair_groups directory fetches as the empty
collection, a success. -/
theorem c7_fetch_valid_text_entries_witness :
    (fetch_pair_groups ⟨[(FileName.valid "x", FileData.corrupt "junk")], []⟩).1
      = Except.ok [] :=
  (c7_fetch_valid_text_entries
    ⟨[(FileName.valid "x", FileData.corrupt "junk")], []⟩).2 rfl

/-- C8: ensure_dir computes root/name and, whenever it returns at all, it
returns that path successfully: a directory-creation failure panics
(returns nothing) instead of surfacing through the recoverable Result, so
the error branch is unreachable. -/
theorem c8_ensure_dir_never_errors (env : DirPath → Bool) (root : DirPath)
    (name : String) (r : Except Error DirPath)
    (h : ensure_dir env root name = some r) :
    r = Except.ok (root.join name) := by
  by_cases he : env (root.join name)
  · simp only [ensure_dir, if_pos he, Option.some.injEq] at h
    exact h.symm
  · simp [ensure_dir, he] at h

/-- C8 witness: under an environment where creation succeeds, ensure_dir
returns Ok of root/name. -/
theorem c8_ensure_dir_never_errors_witness :
    (Except.ok (DirPath.mk ["root", "pairs"]) : Except Error DirPath)
      = Except.ok (DirPath.join ⟨["root"]⟩ "pairs") :=
  c8_ensure_dir_never_errors (fun _ => true) ⟨["root"]⟩ "pairs"
    (Except.ok ⟨["root", "pairs"]⟩) rfl

/-- C9: no public operation deletes a file: fetch_pair_groups returns the
state unchanged, and after update_pair_group every file present before is
still present — in particular, pair files the updated group no longer
references stay behind as orphans. -/
theorem c9_no_file_deletion (s : FSState) (g : PairGroup) (n : FileName) :
    (fetch_pair_groups s).2 = s ∧
    (hasFile s.pairs n → hasFile (update_pair_group s g).2.1.pairs n) ∧
    (hasFile s.pair_groups n → hasFile (update_pair_group s g).2.1.pair_groups n) := by
  refine ⟨rfl, ?_, ?_⟩
  · intro h
    cases hf : findFile s.pair_groups g.id with
    | none => simpa [update_pair_group, hf] using h
    | some fd =>
      have hst : (update_pair_group s g).2.1 = (write_pair_group s g).1 := by
        simp [update_pair_group, hf]
      rw [hst]
      exact hasFile_writePairsLoop g.pairs s n h
  · intro h
    cases hf : findFile s.pair_groups g.id with
    | none => simpa [update_pair_group, hf] using h
    | some fd =>
      have hst : (update_pair_group s g).2.1 = (write_pair_group s g).1 := by
        simp [update_pair_group, hf]
      rw [hst]
      show hasFile (writeFile (writePairsLoop s g.pairs).1.pair_groups g.id
        (FileData.groupData (toFileSystemPairGroup g))) n
      apply hasFile_writeFile
      rw [writePairsLoop_pair_groups]
      exact h

/-- C9 witness: updating g9 to an empty pair list keeps both the
no-longer-referenced pair file p9 (as an orphan) and the group file g9. -/
theorem c9_no_file_deletion_witness :
    hasFile (update_pair_group orphanState ⟨"g9", true, [], "c", "u"⟩).2.1.pairs
      (FileName.valid "p9") ∧
    hasFile (update_pair_group orphanState ⟨"g9", true, [], "c", "u"⟩).2.1.pair_groups
      (FileName.valid "g9") :=
  ⟨(c9_no_file_deletion orphanState ⟨"g9", true, [], "c", "u"⟩
      (FileName.valid "p9")).2.1
      ⟨FileData.pairData (toFileSystemPair samplePair2), List.mem_singleton.mpr rfl⟩,
   (c9_no_file_deletion orphanState ⟨"g9", true, [], "c", "u"⟩
      (FileName.valid "g9")).2.2
      ⟨FileData.groupData ⟨"g9", false, ["p9"], "c0", "u0"⟩,
       List.mem_singleton.mpr rfl⟩⟩

/-- C10 (amended): for a group holding two pairs with the same id but
different content, write_pair_group writes both to the same file in list
order so the last occurrence wins; provided the last occurrence's value is
finite (so its record decodes back), re-reading the group hydrates both
positions from that single file: the result carries the last-written pair
twice and is not field-for-field equal to the written group. -/
theorem c10_duplicate_ids_last_write_wins (s : FSState) (p1 p2 : Pair)
    (gid : String) (pin : Bool) (ca ua : String)
    (hid : p1.id = p2.id) (hne : p1 ≠ p2)
    (hfin2 : p2.value.isFinite = true) :
    findFile (write_pair_group s ⟨gid, pin, [p1, p2], ca, ua⟩).1.pairs p1.id
        = some (FileData.pairData (toFileSystemPair p2)) ∧
    read_pair_group (write_pair_group s ⟨gid, pin, [p1, p2], ca, ua⟩).1 gid
        = Except.ok ⟨gid, pin, [p2, p2], ca, ua⟩ ∧
    (⟨gid, pin, [p2, p2], ca, ua⟩ : PairGroup) ≠ ⟨gid, pin, [p1, p2], ca, ua⟩ := by
  have hrec2 : writePairRecord p2 = FileData.pairData (toFileSystemPair p2) := by
    simp [writePairRecord, hfin2]
  have hpairs : (write_pair_group s ⟨gid, pin, [p1, p2], ca, ua⟩).1.pairs
      = writeFile (writeFile s.pairs p1.id (writePairRecord p1))
          p2.id (FileData.pairData (toFileSystemPair p2)) := by
    rw [← hrec2]
    simp [write_pair_group, writePairsLoop, write_pair]
  have h1 : findFile (write_pair_group s ⟨gid, pin, [p1, p2], ca, ua⟩).1.pairs p1.id
      = some (FileData.pairData (toFileSystemPair p2)) := by
    rw [hpairs, hid]
    exact findFile_writeFile_self _ _ _
  have h1b : findFile (write_pair_group s ⟨gid, pin, [p1, p2], ca, ua⟩).1.pairs p2.id
      = some (FileData.pairData (toFileSystemPair p2)) := by
    rw [hpairs]
    exact findFile_writeFile_self _ _ _
  have h2a : read_pair (write_pair_group s ⟨gid, pin, [p1, p2], ca, ua⟩).1 p1.id
      = Except.ok p2 := by
    simp [read_pair, create_object_from_file, h1, decodePair,
      fromFileSystemPair_toFileSystemPair]
  have h2b : read_pair (write_pair_group s ⟨gid, pin, [p1, p2], ca, ua⟩).1 p2.id
      = Except.ok p2 := by
    simp [read_pair, create_object_from_file, h1b, decodePair,
      fromFileSystemPair_toFileSystemPair]
  have hgrec : findFile (write_pair_group s ⟨gid, pin, [p1, p2], ca, ua⟩).1.pair_groups gid
      = some (FileData.groupData
          (toFileSystemPairGroup ⟨gid, pin, [p1, p2], ca, ua⟩)) := by
    simp only [write_pair_group]
    exact findFile_writeFile_self _ _ _
  refine ⟨h1, ?_, ?_⟩
  · simp [read_pair_group, create_object_from_file, hgrec, decodeGroup,
      toFileSystemPairGroup, readPairsLoop, h2a, h2b]
  · simp [PairGroup.mk.injEq, List.cons.injEq, Ne.symm hne]

/-- C10 counterexample: the claim fails as stated when the last duplicate's
value is non-finite: the write itself succeeds (serde_json serializes NaN
as null), but the subsequent fetch of the group fails to decode the shared
pair file instead of hydrating the last-written content at both
positions. -/
theorem c10_duplicate_ids_counterexample :
    read_pair_group
        (write_pair_group emptyState
          ⟨"g", false, [samplePair1, samplePairNaN], "c", "u"⟩).1 "g"
      = Except.error ⟨jsonDecodeMsg⟩ := rfl

/-- C10 witness: two concrete pairs sharing the id p1 but with different
base currencies and finite values; the fetched group repeats the second
pair and differs from the written group. -/
theorem c10_duplicate_ids_last_write_wins_witness :
    findFile
        (write_pair_group emptyState
          ⟨"g", false, [samplePair1, samplePair1Dup], "c", "u"⟩).1.pairs
        samplePair1.id
      = some (FileData.pairData (toFileSystemPair samplePair1Dup)) ∧
    read_pair_group
        (write_pair_group emptyState
          ⟨"g", false, [samplePair1, samplePair1Dup], "c", "u"⟩).1 "g"
      = Except.ok ⟨"g", false, [samplePair1Dup, samplePair1Dup], "c", "u"⟩ ∧
    (⟨"g", false, [samplePair1Dup, samplePair1Dup], "c", "u"⟩ : PairGroup)
      ≠ ⟨"g", false, [samplePair1, samplePair1Dup], "c", "u"⟩ :=
  c10_duplicate_ids_last_write_wins emptyState samplePair1 samplePair1Dup
    "g" false "c" "u" rfl (by decide) (by decide)

end ARKRate
